import Mathlib

/-!
Verification of the level-generation and simulation core of a tile-grid
chase game (`src/main.py`).  The Python source is shallowly embedded:

* the tile grid `level_map[y][x]` becomes `Grid := List (List Tile)`;
* positions handled by the game logic are `Int × Int` (Python ints), and
  `Level._get_tile` returns `Option Tile`, `none` out of bounds;
* `random.sample` is modelled by an explicit selection function `pick`
  constrained by `SampleOK` (any set of `n` distinct elements of the pool);
* `random.randint` streams are modelled by explicit candidate lists;
* `raise` is modelled by `Except String`.
-/

/-- Tile values of `Level`: WALL, EMPTY, COIN, DOOR. -/
inductive Tile where
  | wall
  | empty
  | coin
  | door
deriving DecidableEq, Repr

/-- `level_map` : a list of rows, indexed `grid[y][x]`. -/
abbrev Grid := List (List Tile)

/-- Helper for embedding Python loops `for i, a in enumerate(l)` that rebuild
a list elementwise from the index; `i` is the index of the first element. -/
def mapWithIdx (f : Nat → α → β) : Nat → List α → List β
  | _, [] => []
  | i, a :: l => f i a :: mapWithIdx f (i + 1) l

/-- `Level._create_empty_map`: `h` rows of `w` EMPTY tiles. -/
def create_empty_map (w h : Nat) : Grid :=
  List.replicate h (List.replicate w Tile.empty)

/-- `Level._add_external_walls`: every cell with `y = 0`, `y = h-1`, `x = 0`
or `x = w-1` is set to WALL, other cells are unchanged. -/
def add_external_walls (w h : Nat) (g : Grid) : Grid :=
  mapWithIdx (fun y row =>
    mapWithIdx (fun x t =>
      if y = 0 ∨ y = h - 1 ∨ x = 0 ∨ x = w - 1 then Tile.wall else t) 0 row) 0 g

/-- Raw grid lookup `level_map[y][x]` (as an `Option`, `none` if the index
is out of range of the lists). -/
def cellAt (g : Grid) (x y : Nat) : Option Tile :=
  (g[y]?).bind fun row => row[x]?

/-- Raw grid assignment `level_map[y][x] = value` (no-op if out of range,
which never happens at the call sites, all guarded by tile tests). -/
def setCell (g : Grid) (x y : Nat) (v : Tile) : Grid :=
  match g[y]? with
  | none => g
  | some row => g.set y (row.set x v)

/-- The interior index pairs `(x, y)` for `y in range(1, h-1)`,
`x in range(1, w-1)`, in the iteration order of the comprehension in
`Level._get_empty_positions`. -/
def interior_positions (w h : Nat) : List (Nat × Nat) :=
  (List.range' 1 (h - 2)).flatMap fun y =>
    (List.range' 1 (w - 2)).map fun x => (x, y)

/-- `Level._get_empty_positions`:
`[(x, y) for y in range(1, h-1) for x in range(1, w-1) if map[y][x] == EMPTY]`. -/
def get_empty_positions (w h : Nat) (g : Grid) : List (Nat × Nat) :=
  (interior_positions w h).filter fun p => cellAt g p.1 p.2 = some Tile.empty

/-- A model of `random.sample(pool, count)`: `pick` is admissible when, on a
duplicate-free pool and a feasible count, it returns `count` distinct
elements of the pool (in any order). -/
def SampleOK (pick : List (Nat × Nat) → Nat → List (Nat × Nat)) : Prop :=
  ∀ l n, l.Nodup → n ≤ l.length →
    (pick l n) ⊆ l ∧ (pick l n).Nodup ∧ (pick l n).length = n

/-- `Level._place_items`: recompute the empty pool, raise
`ValueError("Not enough space ...")` if `count` exceeds it, else set the
sampled cells to `symbol`. -/
def place_items (pick : List (Nat × Nat) → Nat → List (Nat × Nat))
    (w h : Nat) (symbol : Tile) (count : Nat) (g : Grid) : Except String Grid :=
  let empty := get_empty_positions w h g
  if count > empty.length then
    .error "Not enough space"
  else
    .ok ((pick empty count).foldl (fun g p => setCell g p.1 p.2 symbol) g)

/-- `Level._generate_map`: empty map, external walls, then internal walls,
one door, and the coins, each phase sampling from the current empty pool. -/
def generate_map (pick : List (Nat × Nat) → Nat → List (Nat × Nat))
    (w h num_internal_walls num_coins : Nat) : Except String Grid :=
  (place_items pick w h Tile.wall num_internal_walls
      (add_external_walls w h (create_empty_map w h))).bind fun g1 =>
    (place_items pick w h Tile.door 1 g1).bind fun g2 =>
      place_items pick w h Tile.coin num_coins g2

/-- The `Level` object: window size, the coin count handed to generation
(`num_coins`, the win threshold), and the tile grid. -/
structure Level where
  win_w : Nat
  win_h : Nat
  num_coins : Nat
  level_map : Grid
deriving Repr, DecidableEq

/-- `Level._in_bounds`. -/
def Level.in_bounds (lvl : Level) (x y : Int) : Prop :=
  0 ≤ x ∧ x < (lvl.win_w : Int) ∧ 0 ≤ y ∧ y < (lvl.win_h : Int)

instance (lvl : Level) (x y : Int) : Decidable (lvl.in_bounds x y) := by
  unfold Level.in_bounds; infer_instance

/-- `Level._get_tile`: `None` out of bounds, else `level_map[y][x]`. -/
def Level.get_tile (lvl : Level) (x y : Int) : Option Tile :=
  if lvl.in_bounds x y then cellAt lvl.level_map x.toNat y.toNat else none

/-- `Level.is_not_wall` — note that an out-of-bounds position yields
`none ≠ some wall`, hence counts as walkable. -/
def Level.is_not_wall (lvl : Level) (position : Int × Int) : Bool :=
  decide (lvl.get_tile position.1 position.2 ≠ some Tile.wall)

/-- `Level.is_coin`. -/
def Level.is_coin (lvl : Level) (position : Int × Int) : Bool :=
  decide (lvl.get_tile position.1 position.2 = some Tile.coin)

/-- `Level.is_door`. -/
def Level.is_door (lvl : Level) (position : Int × Int) : Bool :=
  decide (lvl.get_tile position.1 position.2 = some Tile.door)

/-- The direct assignments `self.level.level_map[y][x] = ' '` in
`update_monster`; at both call sites the position was just checked to hold
a COIN resp. DOOR, so it is in bounds and the `toNat` casts are exact. -/
def Level.set_tile_empty (lvl : Level) (position : Int × Int) : Level :=
  { lvl with level_map := setCell lvl.level_map position.1.toNat position.2.toNat Tile.empty }

/-- The simulation state of `GameApplication` plus its `Monster` and the
positions of its `Robot`s (robot sprite/timer fields carry no game logic). -/
structure GState where
  level : Level
  monster_pos : Int × Int
  coins_carried : Nat
  is_caught : Bool
  level_finished : Bool
  robots : List (Int × Int)
deriving Repr, DecidableEq

/-- `Monster.propose_move` / `Robot.propose_move`. -/
def propose_move (position : Int × Int) (dx dy : Int) : Int × Int :=
  (position.1 + dx, position.2 + dy)

/-- `GameApplication.is_valid_monster_position`. -/
def is_valid_monster_position (lvl : Level) (position : Int × Int) : Bool :=
  lvl.is_not_wall position

/-- `GameApplication.is_valid_robot_position`.  The `robot` argument is the
index of the moving robot in `self.robots` (`none` when the Python call
passes `None` during seeding); `r != robot` is object identity, so the
peer set is every list entry except that index. -/
def is_valid_robot_position (lvl : Level) (robots : List (Int × Int))
    (robot : Option Nat) (position : Int × Int) : Bool :=
  if ¬ lvl.is_not_wall position ∨ lvl.is_coin position ∨ lvl.is_door position then
    false
  else
    let other_robots := match robot with
      | none => robots
      | some i => robots.eraseIdx i
    if position ∈ other_robots then false else true

/-- First block of `update_monster`: commit the move when the proposed
position is valid (not a wall), else stay. -/
def monster_move_step (s : GState) (p : Int × Int) : GState :=
  if is_valid_monster_position s.level p then { s with monster_pos := p } else s

/-- Second block of `update_monster`: coin collection, checked against the
PROPOSED position (`self.level.is_coin(proposed_position)`). -/
def coin_step (s : GState) (p : Int × Int) : GState :=
  if s.level.is_coin p then
    { s with coins_carried := s.coins_carried + 1,
             level := s.level.set_tile_empty p }
  else s

/-- Third block of `update_monster`: door / level completion, again checked
against the proposed position, with the current `coins_carried`. -/
def door_step (s : GState) (p : Int × Int) : GState :=
  if s.level.is_door p ∧ s.coins_carried = s.level.num_coins then
    { s with level := s.level.set_tile_empty p, level_finished := true }
  else s

/-- Fourth block of `update_monster`: the monster is caught when the
proposed position is one of the robots' current positions. -/
def capture_step (s : GState) (p : Int × Int) : GState :=
  if p ∈ s.robots then { s with is_caught := true } else s

/-- `GameApplication.update_monster`: the four `if` blocks of the source,
executed in order, all against the proposed position. -/
def update_monster (s : GState) (dx dy : Int) : GState :=
  let proposed_position := propose_move s.monster_pos dx dy
  capture_step
    (door_step
      (coin_step (monster_move_step s proposed_position) proposed_position)
      proposed_position)
    proposed_position

/-- The move list `possible_robot_moves` of `update_robots`. -/
def possible_robot_moves : List (Int × Int) := [(0, 1), (0, -1), (1, 0), (-1, 0)]

/-- The `valid_positions` list built for the robot at index `i` (current
position `r`) inside `update_robots`. -/
def valid_positions (s : GState) (i : Nat) (r : Int × Int) : List (Int × Int) :=
  possible_robot_moves.filterMap fun d =>
    let proposed_position := propose_move r d.1 d.2
    if is_valid_robot_position s.level s.robots (some i) proposed_position then
      some proposed_position
    else none

/-- Python `min(x :: xs, key)`: fold keeping the first element whose key is
strictly smaller than the current minimum, so the first minimum wins.  The
source key is `sqrt((mx-px)**2 + (my-py)**2)`; real square root is strictly
monotone (and exact on these small integer radicands), so the squared
distance yields the identical argmin and tie order. -/
def py_min (key : α → Int) (x : α) (xs : List α) : α :=
  xs.foldl (fun b c => if key c < key b then c else b) x

/-- The squared-distance key used to chase the monster. -/
def sq_dist (m p : Int × Int) : Int :=
  (m.1 - p.1) ^ 2 + (m.2 - p.2) ^ 2

/-- One iteration of the `for robot in self.robots` loop of
`update_robots`, for the robot at index `i`.  Faithful quirks:

* when `valid_positions` is empty the source evaluates the fallback list
  comprehension, which calls the nonexistent method
  `self.validated_position` and hence raises `AttributeError`; this is the
  `.error` branch;
* the final capture test compares `proposed_position`, the leftover inner
  loop variable, which at that point holds the LAST enumerated proposal
  `(x - 1, y)` from the robot's pre-move position — not the robot's new
  position. -/
def update_robot (s : GState) (i : Nat) : Except String GState :=
  match s.robots[i]? with
  | none => .ok s
  | some r =>
    let stale_proposed := propose_move r (-1) 0
    match valid_positions s i r with
    | [] => .error "AttributeError: validated_position is not defined"
    | v :: vs =>
      let target := py_min (fun pos => sq_dist s.monster_pos pos) v vs
      let s1 := { s with robots := s.robots.set i target }
      .ok (if stale_proposed = s1.monster_pos then { s1 with is_caught := true } else s1)

/-- The robot loop, iterating the given indices. -/
def update_robots_from (s : GState) : List Nat → Except String GState
  | [] => .ok s
  | i :: is => match update_robot s i with
    | .error e => .error e
    | .ok s1 => update_robots_from s1 is

/-- `GameApplication.update_robots`. -/
def update_robots (s : GState) : Except String GState :=
  update_robots_from s (List.range s.robots.length)

/-- `GameApplication.seed_monster`, with the `randint` stream given as an
explicit candidate list: the first candidate that is a valid monster
position is taken. -/
def seed_monster (lvl : Level) : List (Int × Int) → Option (Int × Int)
  | [] => none
  | c :: cs => if is_valid_monster_position lvl c then some c else seed_monster lvl cs

/-- The `while` loop of `GameApplication.seed_robots` on an explicit
candidate stream: accept a candidate iff `is_valid_robot_position(c, None)`
holds and `c` is not in `used_positions` (the monster plus the robots
placed so far). -/
def seed_robots_from (lvl : Level) (monster_pos : Int × Int) (num_robots : Nat)
    (robots : List (Int × Int)) : List (Int × Int) → List (Int × Int)
  | [] => robots
  | c :: cs =>
    if robots.length < num_robots then
      if is_valid_robot_position lvl robots none c ∧ c ∉ monster_pos :: robots then
        seed_robots_from lvl monster_pos num_robots (robots ++ [c]) cs
      else
        seed_robots_from lvl monster_pos num_robots robots cs
    else robots

/-- `GameApplication.seed_robots`, starting from no robots. -/
def seed_robots (lvl : Level) (monster_pos : Int × Int) (num_robots : Nat)
    (cands : List (Int × Int)) : List (Int × Int) :=
  seed_robots_from lvl monster_pos num_robots [] cands

/-- One driver-loop action on the simulation state. -/
inductive GStep where
  | monster (dx dy : Int)
  | robots

/-- Run a sequence of `update_monster` / `update_robots` calls. -/
def run_steps (s : GState) : List GStep → Except String GState
  | [] => .ok s
  | GStep.monster dx dy :: rest => run_steps (update_monster s dx dy) rest
  | GStep.robots :: rest =>
    match update_robots s with
    | .error e => .error e
    | .ok s1 => run_steps s1 rest

/-- The border-ring predicate of the spec: every cell of the outermost ring
is WALL (bounded quantifiers, hence decidable on concrete grids). -/
def border_all_wall (w h : Nat) (g : Grid) : Prop :=
  ∀ x, x < w → ∀ y, y < h →
    (x = 0 ∨ x = w - 1 ∨ y = 0 ∨ y = h - 1) →
    cellAt g x y = some Tile.wall

instance (w h : Nat) (g : Grid) : Decidable (border_all_wall w h g) := by
  unfold border_all_wall; infer_instance

/-- Count of a tile value over the whole grid. -/
def count_tile (g : Grid) (t : Tile) : Nat :=
  (g.map fun row => row.count t).sum

/-- Chebyshev distance — stated from the SPEC (`spawnRobots` is claimed to
keep robots at Chebyshev distance ≥ `minDistance` from the monster); the
source has no such notion, which is exactly what claim C5 is about. -/
def chebyshev_dist (a b : Int × Int) : Int :=
  max (a.1 - b.1).natAbs (a.2 - b.2).natAbs

/-! ## Helper lemmas: cells, set, and the level structure -/

/-- Reading back the cell just written. -/
theorem cellAt_setCell_self (g : Grid) (x y : Nat) (v t : Tile)
    (h : cellAt g x y = some t) : cellAt (setCell g x y v) x y = some v := by
  unfold cellAt at h
  cases hrow : g[y]? with
  | none => rw [hrow] at h; simp at h
  | some row =>
    rw [hrow] at h
    simp only [Option.some_bind] at h
    have hy : y < g.length := (List.getElem?_eq_some_iff.mp hrow).1
    have hx : x < row.length := (List.getElem?_eq_some_iff.mp h).1
    unfold cellAt setCell
    rw [hrow]
    simp [List.getElem?_set_self hy, List.getElem?_set_self hx]

/-- Writing one cell leaves every other cell unchanged. -/
theorem cellAt_setCell_ne (g : Grid) (x y x' y' : Nat) (v : Tile)
    (h : (x', y') ≠ (x, y)) : cellAt (setCell g x y v) x' y' = cellAt g x' y' := by
  unfold setCell
  cases hrow : g[y]? with
  | none => rfl
  | some row =>
    unfold cellAt
    by_cases hyy : y = y'
    · subst hyy
      have hx : x' ≠ x := by
        intro hc
        exact h (by simp [hc])
      have hy : y < g.length := (List.getElem?_eq_some_iff.mp hrow).1
      rw [List.getElem?_set_self hy, hrow]
      simp [List.getElem?_set_ne (fun hc => hx hc.symm)]
    · rw [List.getElem?_set_ne hyy]

/-- `setCell` preserves the outer length of the grid. -/
theorem setCell_length (g : Grid) (x y : Nat) (v : Tile) :
    (setCell g x y v).length = g.length := by
  unfold setCell
  cases g[y]? <;> simp

/-- Moving to one's own position is a no-op on the whole state. -/
theorem monster_move_step_self (s : GState) : monster_move_step s s.monster_pos = s := by
  unfold monster_move_step
  split <;> rfl

/-- The move block only touches `monster_pos`. -/
@[simp] theorem monster_move_step_level (s : GState) (p : Int × Int) :
    (monster_move_step s p).level = s.level := by
  unfold monster_move_step; split <;> rfl

@[simp] theorem monster_move_step_coins (s : GState) (p : Int × Int) :
    (monster_move_step s p).coins_carried = s.coins_carried := by
  unfold monster_move_step; split <;> rfl

@[simp] theorem monster_move_step_finished (s : GState) (p : Int × Int) :
    (monster_move_step s p).level_finished = s.level_finished := by
  unfold monster_move_step; split <;> rfl

@[simp] theorem monster_move_step_caught (s : GState) (p : Int × Int) :
    (monster_move_step s p).is_caught = s.is_caught := by
  unfold monster_move_step; split <;> rfl

@[simp] theorem monster_move_step_robots (s : GState) (p : Int × Int) :
    (monster_move_step s p).robots = s.robots := by
  unfold monster_move_step; split <;> rfl

/-- The coin block is a no-op when the proposed cell is not a COIN. -/
theorem coin_step_of_not_coin {s : GState} {p : Int × Int}
    (h : s.level.is_coin p = false) : coin_step s p = s := by
  unfold coin_step; simp [h]

@[simp] theorem coin_step_pos (s : GState) (p : Int × Int) :
    (coin_step s p).monster_pos = s.monster_pos := by
  unfold coin_step; split <;> rfl

@[simp] theorem coin_step_finished (s : GState) (p : Int × Int) :
    (coin_step s p).level_finished = s.level_finished := by
  unfold coin_step; split <;> rfl

@[simp] theorem coin_step_caught (s : GState) (p : Int × Int) :
    (coin_step s p).is_caught = s.is_caught := by
  unfold coin_step; split <;> rfl

@[simp] theorem coin_step_robots (s : GState) (p : Int × Int) :
    (coin_step s p).robots = s.robots := by
  unfold coin_step; split <;> rfl

/-- The door block is a no-op when the proposed cell is not a DOOR. -/
theorem door_step_of_not_door {s : GState} {p : Int × Int}
    (h : s.level.is_door p = false) : door_step s p = s := by
  unfold door_step
  rw [if_neg]
  intro hcon
  rw [h] at hcon
  exact absurd hcon.1 (by simp)

@[simp] theorem door_step_pos (s : GState) (p : Int × Int) :
    (door_step s p).monster_pos = s.monster_pos := by
  unfold door_step; split <;> rfl

@[simp] theorem door_step_coins (s : GState) (p : Int × Int) :
    (door_step s p).coins_carried = s.coins_carried := by
  unfold door_step; split <;> rfl

@[simp] theorem door_step_caught (s : GState) (p : Int × Int) :
    (door_step s p).is_caught = s.is_caught := by
  unfold door_step; split <;> rfl

@[simp] theorem door_step_robots (s : GState) (p : Int × Int) :
    (door_step s p).robots = s.robots := by
  unfold door_step; split <;> rfl

/-- The capture block is a no-op when no robot sits on the proposed cell. -/
theorem capture_step_of_not_mem {s : GState} {p : Int × Int}
    (h : p ∉ s.robots) : capture_step s p = s := by
  unfold capture_step; simp [h]

@[simp] theorem capture_step_level (s : GState) (p : Int × Int) :
    (capture_step s p).level = s.level := by
  unfold capture_step; split <;> rfl

@[simp] theorem capture_step_pos (s : GState) (p : Int × Int) :
    (capture_step s p).monster_pos = s.monster_pos := by
  unfold capture_step; split <;> rfl

@[simp] theorem capture_step_coins (s : GState) (p : Int × Int) :
    (capture_step s p).coins_carried = s.coins_carried := by
  unfold capture_step; split <;> rfl

@[simp] theorem capture_step_finished (s : GState) (p : Int × Int) :
    (capture_step s p).level_finished = s.level_finished := by
  unfold capture_step; split <;> rfl

@[simp] theorem capture_step_robots (s : GState) (p : Int × Int) :
    (capture_step s p).robots = s.robots := by
  unfold capture_step; split <;> rfl

/-- Window size survives `set_tile_empty`. -/
theorem set_tile_empty_win (lvl : Level) (p : Int × Int) :
    (lvl.set_tile_empty p).win_w = lvl.win_w ∧ (lvl.set_tile_empty p).win_h = lvl.win_h ∧
    (lvl.set_tile_empty p).num_coins = lvl.num_coins := by
  exact ⟨rfl, rfl, rfl⟩

/-- `get_tile` after clearing the same cell: the cell is EMPTY. -/
theorem get_tile_set_tile_empty_self (lvl : Level) (x y : Int) (t : Tile)
    (h : lvl.get_tile x y = some t) :
    (lvl.set_tile_empty (x, y)).get_tile x y = some Tile.empty := by
  unfold Level.get_tile at h ⊢
  by_cases hb : lvl.in_bounds x y
  · rw [if_pos hb] at h
    rw [if_pos (show (lvl.set_tile_empty (x, y)).in_bounds x y from hb)]
    exact cellAt_setCell_self _ _ _ _ _ h
  · rw [if_neg hb] at h
    exact absurd h (by simp)

/-- `get_tile` at any other position is unchanged by `set_tile_empty`. -/
theorem get_tile_set_tile_empty_ne (lvl : Level) (p : Int × Int) (x y : Int)
    (hxy : 0 ≤ x → 0 ≤ y → (x.toNat, y.toNat) ≠ (p.1.toNat, p.2.toNat)) :
    (lvl.set_tile_empty p).get_tile x y = lvl.get_tile x y := by
  unfold Level.get_tile
  by_cases hb : lvl.in_bounds x y
  · rw [if_pos hb, if_pos (show (lvl.set_tile_empty p).in_bounds x y from hb)]
    exact cellAt_setCell_ne _ _ _ _ _ _ (hxy hb.1 hb.2.2.1)
  · rw [if_neg hb, if_neg (show ¬ (lvl.set_tile_empty p).in_bounds x y from hb)]

/-- A cell holding a DOOR holds neither a COIN nor a WALL. -/
theorem is_door_not_is_coin (lvl : Level) (p : Int × Int) (h : lvl.is_door p = true) :
    lvl.is_coin p = false := by
  unfold Level.is_door at h
  unfold Level.is_coin
  simp only [decide_eq_true_eq] at h
  simp [h]

/-! ## Concrete states used by evaluation theorems -/

/-- A 20×10 level (the fixed map size of the game) whose interior is all
EMPTY — reachable as a generated level with zero internal walls and coins
already collected. -/
def lvl20 : Level := ⟨20, 10, 5, add_external_walls 20 10 (create_empty_map 20 10)⟩

/-- Scenario B of the spec: monster at `(5,5)`, one robot below it at
`(5,4)`, all intervening tiles empty. -/
def chase_state : GState := ⟨lvl20, (5, 5), 0, false, false, [(5, 4)]⟩

/-- The same 20×10 level with internal walls at `(2,1)` and `(1,2)`,
boxing in the cell `(1,1)`. -/
def boxed_level : Level :=
  ⟨20, 10, 5,
    setCell (setCell (add_external_walls 20 10 (create_empty_map 20 10)) 2 1 Tile.wall)
      1 2 Tile.wall⟩

/-- A state whose single robot, at `(1,1)`, has all four neighbours WALL. -/
def boxed_state : GState := ⟨boxed_level, (5, 5), 0, false, false, [(1, 1)]⟩

/-- A state in which a robot occupies the monster's cell while the caught
flag is still clear (reachable: from `chase_state` one `update_robots`
call produces exactly this state, see `c1_robot_reaches_monster_uncaught`). -/
def overlap_state : GState := ⟨lvl20, (5, 5), 0, false, false, [(5, 5)]⟩

/-! ## Claims C1, C2: the robot-update code bugs -/

/-- C1.  The claim says: after a robot's move, if the robot's position
equals the monster's position, `MonsterCaught` is set — in particular a
pursuing robot stepping onto the monster's cell sets the flag in that same
call.  The code instead compares the leftover loop variable
`proposed_position` (the pre-move position shifted by `(-1,0)`), so in the
spec's own Scenario-B configuration (monster `(5,5)`, robot just below at
`(5,4)`, all tiles empty) the robot steps exactly onto the monster's cell
and the caught flag stays `false`. -/
theorem c1_robot_reaches_monster_uncaught :
    update_robots chase_state = Except.ok overlap_state ∧
    overlap_state.robots = [overlap_state.monster_pos] ∧
    overlap_state.is_caught = false := by
  refine ⟨?_, rfl, rfl⟩
  rfl

/-- C2.  The claim says `update_robots` never raises and a fully blocked
robot simply stays put.  In the code, a robot with no valid neighbour
enters the fallback branch, which calls the nonexistent method
`self.validated_position` and raises `AttributeError`: on `boxed_state`
(robot at `(1,1)` with all four neighbours WALL) `update_robots` errors
instead of leaving the robot in place. -/
theorem c2_blocked_robot_raises :
    update_robots boxed_state =
      Except.error "AttributeError: validated_position is not defined" := by
  rfl

/-! ## Claim C9: the `(0,0)` no-op property of `update_monster` -/

/-- C9 (counterexample).  The claim states that `update_monster(0,0)`
changes nothing unless the monster's own tile is a COIN or DOOR.  In
`overlap_state` the monster stands on an EMPTY tile, yet the call flips
`is_caught` because a robot occupies the monster's cell — such a state is
reachable, see `c1_robot_reaches_monster_uncaught`. -/
theorem c9_zero_move_can_set_caught :
    overlap_state.level.is_coin overlap_state.monster_pos = false ∧
    overlap_state.level.is_door overlap_state.monster_pos = false ∧
    overlap_state.is_caught = false ∧
    (update_monster overlap_state 0 0).is_caught = true := by
  refine ⟨rfl, rfl, rfl, ?_⟩
  rfl

/-- C9 (amended).  `update_monster(0,0)` is the identity on the state
whenever the monster's tile is neither COIN nor DOOR **and no robot
occupies the monster's cell**; the last condition is forced by the
counterexample `c9_zero_move_can_set_caught`. -/
theorem c9_zero_move_is_noop (s : GState)
    (hc : s.level.is_coin s.monster_pos = false)
    (hd : s.level.is_door s.monster_pos = false)
    (hr : s.monster_pos ∉ s.robots) :
    update_monster s 0 0 = s := by
  have hp : propose_move s.monster_pos 0 0 = s.monster_pos := by
    unfold propose_move
    simp
  unfold update_monster
  show capture_step
      (door_step
        (coin_step (monster_move_step s (propose_move s.monster_pos 0 0))
          (propose_move s.monster_pos 0 0))
        (propose_move s.monster_pos 0 0))
      (propose_move s.monster_pos 0 0) = s
  rw [hp, monster_move_step_self, coin_step_of_not_coin hc, door_step_of_not_door hd,
    capture_step_of_not_mem hr]

/-- Witness for `c9_zero_move_is_noop` at a concrete state. -/
theorem c9_zero_move_is_noop_witness :
    update_monster ⟨lvl20, (1, 1), 0, false, false, []⟩ 0 0
      = ⟨lvl20, (1, 1), 0, false, false, []⟩ :=
  c9_zero_move_is_noop ⟨lvl20, (1, 1), 0, false, false, []⟩ (by decide) (by decide)
    (by decide)

/-! ## Claim C5: robot seeding constraints -/

/-- C5 (counterexample).  The claim requires every seeded robot to be at
Chebyshev distance ≥ 3 from the monster; `seed_robots` performs no distance
check whatsoever, and happily places a robot at the cell directly adjacent
to the monster. -/
theorem c5_robot_seeded_adjacent_to_monster :
    seed_robots lvl20 (5, 5) 1 [(5, 6)] = [(5, 6)] ∧
    chebyshev_dist (5, 6) (5, 5) = 1 ∧ ¬ (3 : Int) ≤ chebyshev_dist (5, 6) (5, 5) := by
  refine ⟨?_, rfl, by decide⟩
  rfl

/-- C5 (amended).  Every robot placed by `seed_robots` occupies a cell that
is walkable (not a WALL tile), not COIN, not DOOR, is not the monster's
position, and is not a previously placed robot's position (the result list
has no duplicates); the claimed minimum Chebyshev distance 3 to the
monster does not exist in the code and is dropped. -/
theorem c5_seeded_robots_valid (lvl : Level) (m : Int × Int) (n : Nat)
    (cands : List (Int × Int)) (r : Int × Int)
    (hr : r ∈ seed_robots lvl m n cands) :
    lvl.is_not_wall r = true ∧ lvl.is_coin r = false ∧ lvl.is_door r = false ∧
    r ≠ m ∧ (seed_robots lvl m n cands).Nodup := by
  have key : ∀ (cs : List (Int × Int)) (robots : List (Int × Int)),
      (∀ q ∈ robots, lvl.is_not_wall q = true ∧ lvl.is_coin q = false ∧
        lvl.is_door q = false ∧ q ≠ m) →
      robots.Nodup →
      (∀ q ∈ seed_robots_from lvl m n robots cs,
        lvl.is_not_wall q = true ∧ lvl.is_coin q = false ∧
        lvl.is_door q = false ∧ q ≠ m) ∧
      (seed_robots_from lvl m n robots cs).Nodup := by
    intro cs
    induction cs with
    | nil => intro robots hrob hnd; exact ⟨hrob, hnd⟩
    | cons c cs ih =>
      intro robots hrob hnd
      unfold seed_robots_from
      by_cases hlen : robots.length < n
      · rw [if_pos hlen]
        by_cases hacc : is_valid_robot_position lvl robots none c = true ∧ c ∉ m :: robots
        · rw [if_pos hacc]
          obtain ⟨hval, hnotin⟩ := hacc
          have hc : lvl.is_not_wall c = true ∧ lvl.is_coin c = false ∧
              lvl.is_door c = false ∧ c ≠ m := by
            unfold is_valid_robot_position at hval
            by_cases hbad : ¬ lvl.is_not_wall c = true ∨ lvl.is_coin c = true ∨
                lvl.is_door c = true
            · rw [if_pos hbad] at hval; exact absurd hval (by simp)
            · push_neg at hbad
              refine ⟨by simpa using hbad.1, by simpa using hbad.2.1,
                by simpa using hbad.2.2, ?_⟩
              intro hcm
              exact hnotin (by simp [hcm])
          apply ih
          · intro q hq
            rcases List.mem_append.mp hq with hq | hq
            · exact hrob q hq
            · simp only [List.mem_singleton] at hq
              exact hq ▸ hc
          · refine List.Nodup.append hnd (List.nodup_singleton c) ?_
            intro q hq hq2
            simp only [List.mem_singleton] at hq2
            subst hq2
            exact hnotin (by simp [hq])
        · rw [if_neg hacc]
          exact ih robots hrob hnd
      · rw [if_neg hlen]
        exact ⟨hrob, hnd⟩
  have := key cands [] (by intro q hq; simp at hq) List.nodup_nil
  exact ⟨(this.1 r hr).1, (this.1 r hr).2.1, (this.1 r hr).2.2.1, (this.1 r hr).2.2.2,
    this.2⟩

/-- Witness for `c5_seeded_robots_valid` at a concrete seeding run. -/
theorem c5_seeded_robots_valid_witness :
    lvl20.is_not_wall (5, 6) = true ∧ lvl20.is_coin (5, 6) = false ∧
    lvl20.is_door (5, 6) = false ∧ ((5 : Int), (6 : Int)) ≠ ((5 : Int), (5 : Int)) ∧
    (seed_robots lvl20 (5, 5) 1 [(5, 6)]).Nodup :=
  c5_seeded_robots_valid lvl20 (5, 5) 1 [(5, 6)] (5, 6) (by decide)


/-! ## Claim C4: level completion via the door -/

/-- `update_monster` unfolded to its four blocks. -/
theorem update_monster_eq (s : GState) (dx dy : Int) :
    update_monster s dx dy =
      capture_step
        (door_step
          (coin_step (monster_move_step s (propose_move s.monster_pos dx dy))
            (propose_move s.monster_pos dx dy))
          (propose_move s.monster_pos dx dy))
        (propose_move s.monster_pos dx dy) := rfl

/-- A cell holding a COIN is not a DOOR. -/
theorem is_coin_not_is_door (lvl : Level) (p : Int × Int) (h : lvl.is_coin p = true) :
    lvl.is_door p = false := by
  unfold Level.is_coin at h
  unfold Level.is_door
  simp only [decide_eq_true_eq] at h
  simp [h]

/-- The coin block when the proposed cell is a COIN. -/
theorem coin_step_of_coin {s : GState} {p : Int × Int}
    (h : s.level.is_coin p = true) :
    coin_step s p = { s with coins_carried := s.coins_carried + 1,
                             level := s.level.set_tile_empty p } := by
  unfold coin_step; rw [if_pos h]

/-- The door block when the proposed cell is a DOOR and all coins are held. -/
theorem door_step_of_door_coins {s : GState} {p : Int × Int}
    (hd : s.level.is_door p = true) (hc : s.coins_carried = s.level.num_coins) :
    door_step s p = { s with level := s.level.set_tile_empty p,
                             level_finished := true } := by
  unfold door_step; rw [if_pos ⟨hd, hc⟩]

/-- The door block when the coin count is not complete. -/
theorem door_step_of_wrong_coins {s : GState} {p : Int × Int}
    (hc : s.coins_carried ≠ s.level.num_coins) : door_step s p = s := by
  unfold door_step; exact if_neg fun h => hc h.2

/-- After clearing a cell that held anything, the cell is not a DOOR. -/
theorem is_door_after_clear (lvl : Level) (p : Int × Int) (t : Tile)
    (h : lvl.get_tile p.1 p.2 = some t) :
    (lvl.set_tile_empty p).is_door p = false := by
  have h2 : (lvl.set_tile_empty p).get_tile p.1 p.2 = some Tile.empty :=
    get_tile_set_tile_empty_self lvl p.1 p.2 t h
  unfold Level.is_door
  simp [h2]

/-- `is_coin` in terms of `get_tile`. -/
theorem is_coin_iff_get_tile (lvl : Level) (p : Int × Int) :
    lvl.is_coin p = true ↔ lvl.get_tile p.1 p.2 = some Tile.coin := by
  unfold Level.is_coin; simp

/-- `is_door` in terms of `get_tile`. -/
theorem is_door_iff_get_tile (lvl : Level) (p : Int × Int) :
    lvl.is_door p = true ↔ lvl.get_tile p.1 p.2 = some Tile.door := by
  unfold Level.is_door; simp

/-- C4.  `update_monster` sets the level-finished flag iff the tile at the
proposed position is DOOR and `coins_carried` equals the level's total
coin count (`num_coins`), and in that case the door tile becomes EMPTY.
(Stated for states that are not already finished; the flag is never
cleared.) -/
theorem c4_door_opens_iff (s : GState) (dx dy : Int)
    (h : s.level_finished = false) :
    ((update_monster s dx dy).level_finished = true ↔
      (s.level.is_door (propose_move s.monster_pos dx dy) = true ∧
        s.coins_carried = s.level.num_coins)) ∧
    (s.level.is_door (propose_move s.monster_pos dx dy) = true →
      s.coins_carried = s.level.num_coins →
      (update_monster s dx dy).level.get_tile (propose_move s.monster_pos dx dy).1
          (propose_move s.monster_pos dx dy).2 = some Tile.empty) := by
  rw [update_monster_eq]
  set p := propose_move s.monster_pos dx dy with hp
  have hl1 : (monster_move_step s p).level = s.level := monster_move_step_level s p
  by_cases hdoor : s.level.is_door p = true
  · have hcoin : s.level.is_coin p = false := is_door_not_is_coin s.level p hdoor
    rw [coin_step_of_not_coin
      (show (monster_move_step s p).level.is_coin p = false by rw [hl1]; exact hcoin)]
    by_cases hcc : s.coins_carried = s.level.num_coins
    · rw [door_step_of_door_coins
        (show (monster_move_step s p).level.is_door p = true by rw [hl1]; exact hdoor)
        (show (monster_move_step s p).coins_carried
            = (monster_move_step s p).level.num_coins by
          rw [hl1, monster_move_step_coins]; exact hcc)]
      refine ⟨⟨fun _ => ⟨hdoor, hcc⟩, fun _ => ?_⟩, fun _ _ => ?_⟩
      · rw [capture_step_finished]
      · rw [capture_step_level]
        show ((monster_move_step s p).level.set_tile_empty p).get_tile p.1 p.2
          = some Tile.empty
        rw [hl1]
        exact get_tile_set_tile_empty_self s.level p.1 p.2 Tile.door
          ((is_door_iff_get_tile s.level p).mp hdoor)
    · rw [door_step_of_wrong_coins
        (show (monster_move_step s p).coins_carried
            ≠ (monster_move_step s p).level.num_coins by
          rw [hl1, monster_move_step_coins]; exact hcc)]
      refine ⟨?_, fun _ hcon => absurd hcon hcc⟩
      rw [capture_step_finished, monster_move_step_finished, h]
      exact ⟨fun hcon => absurd hcon (by simp), fun hcon => absurd hcon.2 hcc⟩
  · refine ⟨?_, fun hcon => absurd hcon hdoor⟩
    by_cases hcoin : s.level.is_coin p = true
    · have hd2 : (coin_step (monster_move_step s p) p).level.is_door p = false := by
        rw [coin_step_of_coin
          (show (monster_move_step s p).level.is_coin p = true by rw [hl1]; exact hcoin)]
        show ((monster_move_step s p).level.set_tile_empty p).is_door p = false
        rw [hl1]
        exact is_door_after_clear s.level p Tile.coin
          ((is_coin_iff_get_tile s.level p).mp hcoin)
      rw [door_step_of_not_door hd2, capture_step_finished, coin_step_finished,
        monster_move_step_finished, h]
      exact ⟨fun hcon => absurd hcon (by simp), fun hcon => absurd hcon.1 hdoor⟩
    · rw [coin_step_of_not_coin
        (show (monster_move_step s p).level.is_coin p = false by
          rw [hl1]; simpa using hcoin)]
      rw [door_step_of_not_door
        (show (monster_move_step s p).level.is_door p = false by
          rw [hl1]; simpa using hdoor)]
      rw [capture_step_finished, monster_move_step_finished, h]
      exact ⟨fun hcon => absurd hcon (by simp), fun hcon => absurd hcon.1 hdoor⟩

/-- The concrete 4×4 level with the door at `(2,1)` and no coins, used to
witness `c4_door_opens_iff`. -/
def door_level : Level :=
  ⟨4, 4, 0, setCell (add_external_walls 4 4 (create_empty_map 4 4)) 2 1 Tile.door⟩

/-- The state witnessing `c4_door_opens_iff`: monster at `(1,1)` on
`door_level` carrying all (zero) coins. -/
def door_state : GState := ⟨door_level, (1, 1), 0, false, false, []⟩

/-- Witness for `c4_door_opens_iff`: moving right from `(1,1)` onto the
door finishes the level. -/
theorem c4_door_opens_iff_witness :
    ((update_monster door_state 1 0).level_finished = true ↔
      (door_state.level.is_door (propose_move door_state.monster_pos 1 0) = true ∧
        door_state.coins_carried = door_state.level.num_coins)) ∧
    (door_state.level.is_door (propose_move door_state.monster_pos 1 0) = true →
      door_state.coins_carried = door_state.level.num_coins →
      (update_monster door_state 1 0).level.get_tile
          (propose_move door_state.monster_pos 1 0).1
          (propose_move door_state.monster_pos 1 0).2 = some Tile.empty) :=
  c4_door_opens_iff door_state 1 0 rfl

/-! ## Claim C3: robot target selection -/

/-- Characterization of Python `min` with a key: the result is a member of
the list, its key is minimal, and every element strictly before its first
occurrence has a strictly larger key (first minimum wins). -/
theorem py_min_spec (key : α → Int) (x : α) (xs : List α) :
    py_min key x xs ∈ x :: xs ∧
    (∀ p ∈ x :: xs, key (py_min key x xs) ≤ key p) ∧
    ∃ j : Nat, (x :: xs)[j]? = some (py_min key x xs) ∧
      ∀ (k : Nat) (p : α), k < j → (x :: xs)[k]? = some p →
        key (py_min key x xs) < key p := by
  induction xs generalizing x with
  | nil =>
    refine ⟨by simp [py_min], ?_, 0, by simp [py_min], ?_⟩
    · intro p hp
      simp only [List.mem_singleton] at hp
      simp [py_min, hp]
    · intro k p hk
      exact absurd hk (by omega)
  | cons y ys ih =>
    have hfold : py_min key x (y :: ys) = py_min key (if key y < key x then y else x) ys :=
      rfl
    by_cases hlt : key y < key x
    · rw [hfold, if_pos hlt]
      obtain ⟨hmem, hmin, j, hj, hfirst⟩ := ih y
      refine ⟨?_, ?_, j + 1, ?_, ?_⟩
      · rcases List.mem_cons.mp hmem with hc | hc
        · rw [hc]; simp
        · simp [hc]
      · intro p hp
        rcases List.mem_cons.mp hp with hc | hc
        · rw [hc]
          exact le_of_lt (lt_of_le_of_lt (hmin y (by simp)) hlt)
        · exact hmin p hc
      · simpa using hj
      · intro k p hk hkp
        match k, hkp with
        | 0, hkp =>
          have hpx : p = x := (show x = p by simpa using hkp).symm
          rw [hpx]
          exact lt_of_le_of_lt (hmin y (by simp)) hlt
        | k + 1, hkp =>
          exact hfirst k p (by omega) (by simpa using hkp)
    · rw [hfold, if_neg hlt]
      have hxy : key x ≤ key y := le_of_not_lt hlt
      obtain ⟨hmem, hmin, j, hj, hfirst⟩ := ih x
      have hmem2 : py_min key x ys ∈ x :: y :: ys := by
        rcases List.mem_cons.mp hmem with hc | hc
        · rw [hc]; simp
        · simp [hc]
      have hmin2 : ∀ p ∈ x :: y :: ys, key (py_min key x ys) ≤ key p := by
        intro p hp
        rcases List.mem_cons.mp hp with hc | hc
        · rw [hc]; exact hmin x (by simp)
        · rcases List.mem_cons.mp hc with hc2 | hc2
          · rw [hc2]
            exact le_trans (hmin x (by simp)) hxy
          · exact hmin p (by simp [hc2])
      match j, hj, hfirst with
      | 0, hj, hfirst =>
        exact ⟨hmem2, hmin2, 0, by simpa using hj,
          fun k p hk _ => absurd hk (by omega)⟩
      | j + 1, hj, hfirst =>
        refine ⟨hmem2, hmin2, j + 2, by simpa using hj, ?_⟩
        intro k p hk hkp
        match k, hkp with
        | 0, hkp =>
          have hpx : p = x := (show x = p by simpa using hkp).symm
          rw [hpx]
          exact hfirst 0 x (by omega) (by simp)
        | 1, hkp =>
          have hpy : p = y := (show y = p by simpa using hkp).symm
          rw [hpy]
          exact lt_of_lt_of_le (hfirst 0 x (by omega) (by simp)) hxy
        | k + 2, hkp =>
          exact hfirst (k + 1) p (by omega) (by simpa using hkp)

/-- C3.  In `update_robots`, a robot whose `valid_positions` list is
non-empty moves to the valid cell minimizing the (squared) Euclidean
distance to the monster's current position, ties broken by the first
occurrence in the enumeration order `[(0,1),(0,-1),(1,0),(-1,0)]` (the
order in which `valid_positions` is built). -/
theorem c3_robot_moves_to_closest_valid (s : GState) (i : Nat) (r : Int × Int)
    (hr : s.robots[i]? = some r) (v : Int × Int) (vs : List (Int × Int))
    (hv : valid_positions s i r = v :: vs) :
    ∃ s1 : GState, update_robot s i = Except.ok s1 ∧
      s1.robots = s.robots.set i (py_min (fun q => sq_dist s.monster_pos q) v vs) ∧
      py_min (fun q => sq_dist s.monster_pos q) v vs ∈ valid_positions s i r ∧
      (∀ q ∈ valid_positions s i r,
        sq_dist s.monster_pos (py_min (fun q => sq_dist s.monster_pos q) v vs) ≤
          sq_dist s.monster_pos q) ∧
      ∃ j : Nat, (valid_positions s i r)[j]? =
          some (py_min (fun q => sq_dist s.monster_pos q) v vs) ∧
        ∀ (k : Nat) (q : Int × Int), k < j → (valid_positions s i r)[k]? = some q →
          sq_dist s.monster_pos (py_min (fun q => sq_dist s.monster_pos q) v vs) <
            sq_dist s.monster_pos q := by
  obtain ⟨hmem, hmin, j, hj, hfirst⟩ := py_min_spec (fun q => sq_dist s.monster_pos q) v vs
  rw [hv]
  unfold update_robot
  rw [hr]
  simp only [hv]
  split
  · exact ⟨_, rfl, rfl, hmem, hmin, j, hj, hfirst⟩
  · exact ⟨_, rfl, rfl, hmem, hmin, j, hj, hfirst⟩

/-- Witness for `c3_robot_moves_to_closest_valid` on `chase_state`: the
robot at `(5,4)` has all four neighbour cells valid. -/
theorem c3_robot_moves_to_closest_valid_witness :
    ∃ s1 : GState, update_robot chase_state 0 = Except.ok s1 ∧
      s1.robots = chase_state.robots.set 0
        (py_min (fun q => sq_dist chase_state.monster_pos q) (5, 5)
          [(5, 3), (6, 4), (4, 4)]) ∧
      py_min (fun q => sq_dist chase_state.monster_pos q) (5, 5) [(5, 3), (6, 4), (4, 4)]
        ∈ valid_positions chase_state 0 (5, 4) ∧
      (∀ q ∈ valid_positions chase_state 0 (5, 4),
        sq_dist chase_state.monster_pos
          (py_min (fun q => sq_dist chase_state.monster_pos q) (5, 5)
            [(5, 3), (6, 4), (4, 4)]) ≤ sq_dist chase_state.monster_pos q) ∧
      ∃ j : Nat, (valid_positions chase_state 0 (5, 4))[j]? =
          some (py_min (fun q => sq_dist chase_state.monster_pos q) (5, 5)
            [(5, 3), (6, 4), (4, 4)]) ∧
        ∀ (k : Nat) (q : Int × Int), k < j →
          (valid_positions chase_state 0 (5, 4))[k]? = some q →
          sq_dist chase_state.monster_pos
            (py_min (fun q => sq_dist chase_state.monster_pos q) (5, 5)
              [(5, 3), (6, 4), (4, 4)]) < sq_dist chase_state.monster_pos q :=
  c3_robot_moves_to_closest_valid chase_state 0 (5, 4) (by decide) (5, 5)
    [(5, 3), (6, 4), (4, 4)] (by decide)

/-! ## Generation lemmas: the initial bordered map -/

/-- Indexing into `mapWithIdx`. -/
theorem getElem?_mapWithIdx (f : Nat → α → β) (i : Nat) (l : List α) (j : Nat) :
    (mapWithIdx f i l)[j]? = (l[j]?).map (f (i + j)) := by
  induction l generalizing i j with
  | nil => simp [mapWithIdx]
  | cons a l ih =>
    cases j with
    | zero => simp [mapWithIdx]
    | succ j =>
      unfold mapWithIdx
      simp only [List.getElem?_cons_succ, ih (i + 1) j]
      have : i + 1 + j = i + (j + 1) := by omega
      rw [this]

/-- Every element of `mapWithIdx f i l` is `f j a` for some `a ∈ l`. -/
theorem mem_mapWithIdx (f : Nat → α → β) (i : Nat) (l : List α) (b : β)
    (hb : b ∈ mapWithIdx f i l) : ∃ j a, a ∈ l ∧ b = f j a := by
  induction l generalizing i with
  | nil => simp [mapWithIdx] at hb
  | cons a l ih =>
    unfold mapWithIdx at hb
    rcases List.mem_cons.mp hb with hc | hc
    · exact ⟨i, a, by simp, hc⟩
    · obtain ⟨j, a2, ha2, hba⟩ := ih (i + 1) hc
      exact ⟨j, a2, by simp [ha2], hba⟩

/-- The freshly generated map before item placement: WALL on the border
ring, EMPTY inside. -/
theorem cellAt_initial (w h x y : Nat) (hx : x < w) (hy : y < h) :
    cellAt (add_external_walls w h (create_empty_map w h)) x y =
      some (if y = 0 ∨ y = h - 1 ∨ x = 0 ∨ x = w - 1 then Tile.wall else Tile.empty) := by
  unfold cellAt add_external_walls create_empty_map
  rw [getElem?_mapWithIdx, List.getElem?_replicate, if_pos hy, Option.map_some',
    Option.some_bind, getElem?_mapWithIdx, List.getElem?_replicate, if_pos hx,
    Option.map_some']
  simp

/-- Membership in the interior index list. -/
theorem mem_interior_positions (w h : Nat) (p : Nat × Nat) :
    p ∈ interior_positions w h ↔
      1 ≤ p.1 ∧ p.1 < w - 1 ∧ 1 ≤ p.2 ∧ p.2 < h - 1 := by
  unfold interior_positions
  simp only [List.mem_flatMap, List.mem_map, List.mem_range'_1]
  constructor
  · rintro ⟨y, ⟨hy1, hy2⟩, x, ⟨hx1, hx2⟩, hxy⟩
    rw [← hxy]
    refine ⟨hx1, by omega, hy1, by omega⟩
  · rintro ⟨h1, h2, h3, h4⟩
    exact ⟨p.2, ⟨h3, by omega⟩, p.1, ⟨h1, by omega⟩, by simp⟩

/-- The interior index list has no duplicates. -/
theorem nodup_interior_positions (w h : Nat) : (interior_positions w h).Nodup := by
  unfold interior_positions
  rw [List.nodup_flatMap]
  constructor
  · intro y _
    exact (List.nodup_range' 1 (w - 2)).map fun a b hab => by
      simpa using congrArg Prod.fst hab
  · refine List.Pairwise.imp ?_ (List.nodup_range' 1 (h - 2))
    intro a b hab
    intro q hqa hqb
    simp only [List.mem_map] at hqa hqb
    obtain ⟨x1, _, hx1⟩ := hqa
    obtain ⟨x2, _, hx2⟩ := hqb
    apply hab
    have := hx1 ▸ hx2 ▸ congrArg Prod.snd (hx1.trans hx2.symm)
    simpa using congrArg Prod.snd (hx1.trans hx2.symm)

/-- Membership in the empty-cell pool. -/
theorem mem_get_empty_positions (w h : Nat) (g : Grid) (p : Nat × Nat) :
    p ∈ get_empty_positions w h g ↔
      p ∈ interior_positions w h ∧ cellAt g p.1 p.2 = some Tile.empty := by
  unfold get_empty_positions
  rw [List.mem_filter]
  simp

/-- The empty-cell pool has no duplicates. -/
theorem nodup_get_empty_positions (w h : Nat) (g : Grid) :
    (get_empty_positions w h g).Nodup :=
  (nodup_interior_positions w h).filter _

/-- The interior index list has `(h-2) * (w-2)` entries. -/
theorem length_interior_positions (w h : Nat) :
    (interior_positions w h).length = (h - 2) * (w - 2) := by
  unfold interior_positions
  unfold List.flatMap
  rw [List.length_flatten, List.map_map]
  have hfun : (List.length ∘ fun y : Nat => (List.range' 1 (w - 2)).map fun x => (x, y))
      = fun _ : Nat => w - 2 := by
    funext y
    simp
  rw [hfun, List.map_const', List.sum_replicate, List.length_range']
  simp [Nat.mul_comm]

/-- On the freshly bordered map every interior cell is EMPTY, so the
empty-cell pool is the full interior: `(w-2) * (h-2)` cells. -/
theorem length_initial_empty_positions (w h : Nat) :
    (get_empty_positions w h (add_external_walls w h (create_empty_map w h))).length
      = (w - 2) * (h - 2) := by
  unfold get_empty_positions
  rw [List.filter_eq_self.mpr, length_interior_positions, Nat.mul_comm]
  intro p hp
  rw [mem_interior_positions] at hp
  obtain ⟨h1, h2, h3, h4⟩ := hp
  have hcell := cellAt_initial w h p.1 p.2 (by omega) (by omega)
  rw [if_neg (by omega)] at hcell
  simp [hcell]

/-! ## Generation lemmas: effect of item placement -/

/-- Count of a value after updating one entry (additive form). -/
theorem count_set_add (row : List Tile) (x : Nat) (v : Tile) (t : Tile) :
    ∀ hx : x < row.length,
      (row.set x v).count t + (if row[x] = t then 1 else 0) =
        row.count t + (if v = t then 1 else 0) := by
  induction row generalizing x with
  | nil => intro hx; exact absurd hx (by simp)
  | cons a row ih =>
    intro hx
    cases x with
    | zero =>
      simp only [List.set_cons_zero, List.count_cons, List.getElem_cons_zero]
      have hcv : (if v == t then 1 else 0) = (if v = t then 1 else 0) := by
        by_cases hv : v = t <;> simp [hv]
      have hca : (if a == t then 1 else 0) = (if a = t then 1 else 0) := by
        by_cases ha : a = t <;> simp [ha]
      omega
    | succ x =>
      simp only [List.set_cons_succ, List.count_cons, List.getElem_cons_succ]
      have := ih x (by simpa using hx)
      omega

/-- Sum of a list of naturals after updating one entry (additive form). -/
theorem sum_set_nat (l : List Nat) (i : Nat) (b : Nat) :
    ∀ hi : i < l.length, (l.set i b).sum + l[i] = l.sum + b := by
  induction l generalizing i with
  | nil => intro hi; exact absurd hi (by simp)
  | cons a l ih =>
    intro hi
    cases i with
    | zero => simp only [List.set_cons_zero, List.sum_cons, List.getElem_cons_zero]; omega
    | succ i =>
      simp only [List.set_cons_succ, List.sum_cons, List.getElem_cons_succ]
      have := ih i (by simpa using hi)
      omega

/-- Whole-grid tile count after a single cell update (additive form). -/
theorem count_tile_setCell (g : Grid) (x y : Nat) (v u : Tile)
    (h : cellAt g x y = some u) (t : Tile) :
    count_tile (setCell g x y v) t + (if u = t then 1 else 0) =
      count_tile g t + (if v = t then 1 else 0) := by
  unfold cellAt at h
  cases hrow : g[y]? with
  | none => rw [hrow] at h; simp at h
  | some row =>
    rw [hrow, Option.some_bind] at h
    have hy : y < g.length := (List.getElem?_eq_some_iff.mp hrow).1
    have hx : x < row.length := (List.getElem?_eq_some_iff.mp h).1
    have hrow2 : g[y] = row := by
      have := (List.getElem?_eq_some_iff.mp hrow).2
      exact this
    have hu : row[x] = u := (List.getElem?_eq_some_iff.mp h).2
    unfold setCell
    rw [hrow]
    unfold count_tile
    rw [List.map_set]
    have hsum := sum_set_nat (g.map fun r => r.count t) y ((row.set x v).count t)
      (by simpa using hy)
    have hym : y < (g.map fun r => r.count t).length := by simpa using hy
    have hgy : (g.map fun r => r.count t)[y] = row.count t := by
      rw [List.getElem_map]
      rw [hrow2]
    rw [hgy] at hsum
    have hcnt := count_set_add row x v t hx
    rw [hu] at hcnt
    omega

/-- Filter length when exactly one satisfied element switches off. -/
theorem length_filter_switch_off (L : List α) (p : α)
    (q q' : α → Bool) :
    ∀ (hnd : L.Nodup) (hp : p ∈ L) (hqp : q p = true) (hq'p : q' p = false)
      (hag : ∀ a ∈ L, a ≠ p → q' a = q a),
      (L.filter q').length + 1 = (L.filter q).length := by
  induction L with
  | nil => intro _ hp; exact absurd hp (by simp)
  | cons a L ih =>
    intro hnd hp hqp hq'p hag
    rcases List.mem_cons.mp hp with hc | hc
    · have hnotin : a ∉ L := (List.nodup_cons.mp hnd).1
      have hfeq : L.filter q' = L.filter q := by
        apply List.filter_congr
        intro b hb
        apply hag b (List.mem_cons_of_mem a hb)
        intro hbp
        apply absurd hb
        rw [hbp, hc]
        exact hnotin
      rw [hc] at hqp hq'p
      rw [List.filter_cons, List.filter_cons, hfeq]
      simp [hqp, hq'p]
    · have hap : a ≠ p := by
        intro hc2
        exact (List.nodup_cons.mp hnd).1 (hc2 ▸ hc)
      have hq'a : q' a = q a := hag a (by simp) hap
      simp only [List.filter_cons, hq'a]
      by_cases hqa : q a = true
      · simp only [hqa, if_pos]
        simp only [List.length_cons]
        have := ih (List.nodup_cons.mp hnd).2 hc hqp hq'p
          (fun b hb hbp => hag b (by simp [hb]) hbp)
        omega
      · simp only [Bool.not_eq_true] at hqa
        simp only [hqa, Bool.false_eq_true, if_neg, if_false]
        exact ih (List.nodup_cons.mp hnd).2 hc hqp hq'p
          (fun b hb hbp => hag b (by simp [hb]) hbp)

/-- Effect of one placement phase (the `foldl` over the sampled cells) on
the empty pool, the tile counts, and the non-interior cells. -/
theorem place_fold_spec (w h : Nat) (sym : Tile) (hsym : sym ≠ Tile.empty) :
    ∀ (ps : List (Nat × Nat)) (g : Grid), ps.Nodup →
      (∀ p ∈ ps, p ∈ get_empty_positions w h g) →
      (get_empty_positions w h
          (ps.foldl (fun g p => setCell g p.1 p.2 sym) g)).length + ps.length
        = (get_empty_positions w h g).length ∧
      count_tile (ps.foldl (fun g p => setCell g p.1 p.2 sym) g) sym
        = count_tile g sym + ps.length ∧
      (∀ t : Tile, t ≠ sym → t ≠ Tile.empty →
        count_tile (ps.foldl (fun g p => setCell g p.1 p.2 sym) g) t = count_tile g t) ∧
      (∀ x y : Nat, ¬ (1 ≤ x ∧ x < w - 1 ∧ 1 ≤ y ∧ y < h - 1) →
        cellAt (ps.foldl (fun g p => setCell g p.1 p.2 sym) g) x y = cellAt g x y) := by
  intro ps
  induction ps with
  | nil =>
    intro g _ _
    simp
  | cons p ps ih =>
    intro g hnd hmem
    have hp := (mem_get_empty_positions w h g p).mp (hmem p (by simp))
    obtain ⟨hpint, hpcell⟩ := hp
    have hpin := (mem_interior_positions w h p).mp hpint
    have hpnotin : p ∉ ps := (List.nodup_cons.mp hnd).1
    have hcell1 : cellAt (setCell g p.1 p.2 sym) p.1 p.2 = some sym :=
      cellAt_setCell_self g p.1 p.2 sym Tile.empty hpcell
    have hne : ∀ q : Nat × Nat, q ≠ p →
        cellAt (setCell g p.1 p.2 sym) q.1 q.2 = cellAt g q.1 q.2 := by
      intro q hq
      exact cellAt_setCell_ne g p.1 p.2 q.1 q.2 sym (by simpa using hq)
    have hmem1 : ∀ q ∈ ps, q ∈ get_empty_positions w h (setCell g p.1 p.2 sym) := by
      intro q hq
      have hq0 := (mem_get_empty_positions w h g q).mp (hmem q (by simp [hq]))
      refine (mem_get_empty_positions w h _ q).mpr ⟨hq0.1, ?_⟩
      rw [hne q (fun hc => hpnotin (hc ▸ hq))]
      exact hq0.2
    obtain ⟨ihlen, ihsym, ihoth, ihout⟩ :=
      ih (setCell g p.1 p.2 sym) (List.nodup_cons.mp hnd).2 hmem1
    have hlen1 : (get_empty_positions w h (setCell g p.1 p.2 sym)).length + 1
        = (get_empty_positions w h g).length := by
      unfold get_empty_positions
      apply length_filter_switch_off (interior_positions w h) p _ _
        (nodup_interior_positions w h) hpint
      · simpa using hpcell
      · rw [hcell1]
        simp [hsym]
      · intro a _ hap
        rw [hne a hap]
    have hcnt1 := count_tile_setCell g p.1 p.2 sym Tile.empty hpcell
    refine ⟨?_, ?_, ?_, ?_⟩
    · simp only [List.foldl_cons, List.length_cons]
      omega
    · simp only [List.foldl_cons, List.length_cons]
      have := hcnt1 sym
      rw [if_neg (fun hc => hsym hc.symm), if_pos rfl] at this
      rw [ihsym]
      omega
    · intro t ht hte
      simp only [List.foldl_cons]
      rw [ihoth t ht hte]
      have := hcnt1 t
      rw [if_neg (fun hc => hte hc.symm), if_neg (fun hc => ht hc.symm)] at this
      omega
    · intro x y hxy
      simp only [List.foldl_cons]
      rw [ihout x y hxy]
      apply hne (x, y)
      intro hc
      apply hxy
      rw [show x = p.1 from congrArg Prod.fst hc, show y = p.2 from congrArg Prod.snd hc]
      exact ⟨hpin.1, hpin.2.1, hpin.2.2.1, hpin.2.2.2⟩

/-! ## Claims C6, C7: generation error condition and exact tile counts -/

theorem except_bind_ok (a : α) (f : α → Except ε β) :
    (Except.ok a : Except ε α).bind f = f a := rfl

theorem except_bind_error (e : ε) (f : α → Except ε β) :
    (Except.error e : Except ε α).bind f = Except.error e := rfl

/-- `place_items` either succeeds (count fits the pool) or raises. -/
theorem place_items_cases (pick : List (Nat × Nat) → Nat → List (Nat × Nat))
    (w h : Nat) (sym : Tile) (n : Nat) (g : Grid) :
    (n ≤ (get_empty_positions w h g).length ∧
      place_items pick w h sym n g =
        Except.ok ((pick (get_empty_positions w h g) n).foldl
          (fun g p => setCell g p.1 p.2 sym) g)) ∨
    ((get_empty_positions w h g).length < n ∧
      place_items pick w h sym n g = Except.error "Not enough space") := by
  unfold place_items
  by_cases hn : n > (get_empty_positions w h g).length
  · right
    exact ⟨hn, by rw [if_pos hn]⟩
  · left
    exact ⟨by omega, by rw [if_neg hn]⟩

/-- Successful `place_items` phase: pool shrinks by exactly `n`, the count
of the placed symbol grows by exactly `n`, other non-EMPTY counts and all
non-interior cells are untouched. -/
theorem place_items_ok_spec (pick : List (Nat × Nat) → Nat → List (Nat × Nat))
    (hpk : SampleOK pick) (w h : Nat) (sym : Tile) (hsym : sym ≠ Tile.empty)
    (n : Nat) (g g2 : Grid) (h2 : place_items pick w h sym n g = Except.ok g2) :
    (get_empty_positions w h g2).length + n = (get_empty_positions w h g).length ∧
    count_tile g2 sym = count_tile g sym + n ∧
    (∀ t : Tile, t ≠ sym → t ≠ Tile.empty → count_tile g2 t = count_tile g t) ∧
    (∀ x y : Nat, ¬ (1 ≤ x ∧ x < w - 1 ∧ 1 ≤ y ∧ y < h - 1) →
      cellAt g2 x y = cellAt g x y) := by
  rcases place_items_cases pick w h sym n g with ⟨hle, heq⟩ | ⟨_, heq⟩
  · rw [heq] at h2
    obtain ⟨hsub, hnd, hlen⟩ :=
      hpk (get_empty_positions w h g) n (nodup_get_empty_positions w h g) hle
    have := place_fold_spec w h sym hsym (pick (get_empty_positions w h g) n) g hnd
      (fun p hp => hsub hp)
    rw [hlen] at this
    have h3 : (pick (get_empty_positions w h g) n).foldl
        (fun g p => setCell g p.1 p.2 sym) g = g2 := by
      simpa using h2
    rw [← h3]
    exact this
  · rw [heq] at h2
    exact absurd h2 (by simp)

/-- C6.  Level generation fails (the `ValueError` of `_place_items`) iff
`internal walls + 1 door + coins` exceeds the `(w-2)*(h-2)` interior
cells; otherwise a grid is returned without error. -/
theorem c6_generation_error_iff (pick : List (Nat × Nat) → Nat → List (Nat × Nat))
    (hpk : SampleOK pick) (w h nw nc : Nat) :
    (∃ e, generate_map pick w h nw nc = Except.error e) ↔
      (w - 2) * (h - 2) < nw + 1 + nc := by
  unfold generate_map
  have hlen0 := length_initial_empty_positions w h
  rcases place_items_cases pick w h Tile.wall nw
      (add_external_walls w h (create_empty_map w h)) with ⟨hle1, heq1⟩ | ⟨hgt1, heq1⟩
  · rw [heq1, except_bind_ok]
    set g1 := (pick (get_empty_positions w h (add_external_walls w h (create_empty_map w h)))
      nw).foldl (fun g p => setCell g p.1 p.2 Tile.wall)
      (add_external_walls w h (create_empty_map w h)) with hg1
    have hspec1 := place_items_ok_spec pick hpk w h Tile.wall (by simp) nw _ g1
      (by rw [heq1])
    rcases place_items_cases pick w h Tile.door 1 g1 with ⟨hle2, heq2⟩ | ⟨hgt2, heq2⟩
    · rw [heq2, except_bind_ok]
      set g2 := (pick (get_empty_positions w h g1) 1).foldl
        (fun g p => setCell g p.1 p.2 Tile.door) g1 with hg2
      have hspec2 := place_items_ok_spec pick hpk w h Tile.door (by simp) 1 g1 g2
        (by rw [heq2])
      rcases place_items_cases pick w h Tile.coin nc g2 with ⟨hle3, heq3⟩ | ⟨hgt3, heq3⟩
      · rw [heq3]
        constructor
        · rintro ⟨e, he⟩
          exact absurd he (by simp)
        · intro hcon
          exfalso
          have h1 := hspec1.1
          have h2 := hspec2.1
          omega
      · rw [heq3]
        refine ⟨fun _ => ?_, fun _ => ⟨_, rfl⟩⟩
        have h1 := hspec1.1
        have h2 := hspec2.1
        omega
    · rw [heq2, except_bind_error]
      refine ⟨fun _ => ?_, fun _ => ⟨_, rfl⟩⟩
      have h1 := hspec1.1
      omega
  · rw [heq1, except_bind_error]
    refine ⟨fun _ => by omega, fun _ => ⟨_, rfl⟩⟩

/-- Witness for `c6_generation_error_iff`: `pick` as "take the first `n`"
satisfies `SampleOK`, and a 5×5 request with 2 walls and 3 coins fits its
9 interior cells. -/
theorem c6_generation_error_iff_witness :
    (¬ ∃ e, generate_map (fun l n => l.take n) 5 5 2 3 = Except.error e) ∧
    ¬ ((5 - 2) * (5 - 2) < 2 + 1 + 3) := by
  constructor
  · intro hcon
    have h1 := (c6_generation_error_iff (fun l n => l.take n)
      (fun l n hnd hle => ⟨fun a ha => List.mem_of_mem_take ha,
        hnd.sublist (List.take_sublist n l), by simp [hle]⟩) 5 5 2 3).mp hcon
    omega
  · omega

/-- The freshly bordered map holds only WALL and EMPTY tiles. -/
theorem count_tile_initial (w h : Nat) (t : Tile) (hw : t ≠ Tile.wall)
    (he : t ≠ Tile.empty) :
    count_tile (add_external_walls w h (create_empty_map w h)) t = 0 := by
  unfold count_tile
  apply List.sum_eq_zero
  intro n hn
  rw [List.mem_map] at hn
  obtain ⟨row, hrow, hcnt⟩ := hn
  rw [← hcnt]
  rw [List.count_eq_zero]
  intro ht
  unfold add_external_walls at hrow
  obtain ⟨y, row0, hrow0, hrow2⟩ := mem_mapWithIdx _ 0 _ row hrow
  rw [hrow2] at ht
  obtain ⟨x, a, ha, hfa⟩ := mem_mapWithIdx _ 0 _ t ht
  have ha2 : a = Tile.empty := by
    unfold create_empty_map at hrow0
    have := List.eq_of_mem_replicate hrow0
    rw [this] at ha
    exact List.eq_of_mem_replicate ha
  rw [ha2] at hfa
  by_cases hcond : y = 0 ∨ y = h - 1 ∨ x = 0 ∨ x = w - 1
  · rw [if_pos hcond] at hfa
    exact hw hfa
  · rw [if_neg hcond] at hfa
    exact he hfa

/-- C7.  Every successfully generated grid contains exactly one DOOR tile
and exactly `num_coins` COIN tiles. -/
theorem c7_exact_door_and_coin_counts (pick : List (Nat × Nat) → Nat → List (Nat × Nat))
    (hpk : SampleOK pick) (w h nw nc : Nat) (g : Grid)
    (hg : generate_map pick w h nw nc = Except.ok g) :
    count_tile g Tile.door = 1 ∧ count_tile g Tile.coin = nc := by
  unfold generate_map at hg
  cases h1 : place_items pick w h Tile.wall nw
      (add_external_walls w h (create_empty_map w h)) with
  | error e => rw [h1, except_bind_error] at hg; exact absurd hg (by simp)
  | ok g1 =>
    rw [h1, except_bind_ok] at hg
    cases h2 : place_items pick w h Tile.door 1 g1 with
    | error e => rw [h2, except_bind_error] at hg; exact absurd hg (by simp)
    | ok g2 =>
      rw [h2, except_bind_ok] at hg
      have hs1 := place_items_ok_spec pick hpk w h Tile.wall (by simp) nw _ g1 h1
      have hs2 := place_items_ok_spec pick hpk w h Tile.door (by simp) 1 g1 g2 h2
      have hs3 := place_items_ok_spec pick hpk w h Tile.coin (by simp) nc g2 g hg
      have hd0 : count_tile (add_external_walls w h (create_empty_map w h)) Tile.door
          = 0 := count_tile_initial w h Tile.door (by simp) (by simp)
      have hc0 : count_tile (add_external_walls w h (create_empty_map w h)) Tile.coin
          = 0 := count_tile_initial w h Tile.coin (by simp) (by simp)
      have hd1 : count_tile g1 Tile.door = 0 := by
        rw [hs1.2.2.1 Tile.door (by simp) (by simp), hd0]
      have hc1 : count_tile g1 Tile.coin = 0 := by
        rw [hs1.2.2.1 Tile.coin (by simp) (by simp), hc0]
      have hd2 : count_tile g2 Tile.door = 1 := by
        rw [hs2.2.1, hd1]
      have hc2 : count_tile g2 Tile.coin = 0 := by
        rw [hs2.2.2.1 Tile.coin (by simp) (by simp), hc1]
      constructor
      · rw [hs3.2.2.1 Tile.door (by simp) (by simp), hd2]
      · rw [hs3.2.1, hc2]
        omega

/-- Witness for `c7_exact_door_and_coin_counts` on the take-first sampler:
a 5×5 map with 2 internal walls and 3 coins. -/
theorem c7_exact_door_and_coin_counts_witness :
    count_tile ((generate_map (fun l n => l.take n) 5 5 2 3).toOption.getD [])
      Tile.door = 1 ∧
    count_tile ((generate_map (fun l n => l.take n) 5 5 2 3).toOption.getD [])
      Tile.coin = 3 :=
  c7_exact_door_and_coin_counts (fun l n => l.take n)
    (fun l n hnd hle => ⟨fun a ha => List.mem_of_mem_take ha,
      hnd.sublist (List.take_sublist n l), by simp [hle]⟩)
    5 5 2 3 ((generate_map (fun l n => l.take n) 5 5 2 3).toOption.getD []) (by rfl)

/-! ## Claim C8: the border ring is WALL, always -/

/-- The border ring is WALL right after the external walls are placed. -/
theorem border_all_wall_initial (w h : Nat) :
    border_all_wall w h (add_external_walls w h (create_empty_map w h)) := by
  intro x hx y hy hcond
  rw [cellAt_initial w h x y hx hy, if_pos (by tauto)]

/-- A border cell is not an interior cell. -/
theorem border_not_interior (w h x y : Nat) (hx : x < w) (hy : y < h)
    (hcond : x = 0 ∨ x = w - 1 ∨ y = 0 ∨ y = h - 1) :
    ¬ (1 ≤ x ∧ x < w - 1 ∧ 1 ≤ y ∧ y < h - 1) := by
  omega

/-- The border ring is WALL on every successfully generated grid: the three
placement phases only write interior cells. -/
theorem border_all_wall_generated (pick : List (Nat × Nat) → Nat → List (Nat × Nat))
    (hpk : SampleOK pick) (w h nw nc : Nat) (g : Grid)
    (hg : generate_map pick w h nw nc = Except.ok g) :
    border_all_wall w h g := by
  unfold generate_map at hg
  cases h1 : place_items pick w h Tile.wall nw
      (add_external_walls w h (create_empty_map w h)) with
  | error e => rw [h1, except_bind_error] at hg; exact absurd hg (by simp)
  | ok g1 =>
    rw [h1, except_bind_ok] at hg
    cases h2 : place_items pick w h Tile.door 1 g1 with
    | error e => rw [h2, except_bind_error] at hg; exact absurd hg (by simp)
    | ok g2 =>
      rw [h2, except_bind_ok] at hg
      have hs1 := place_items_ok_spec pick hpk w h Tile.wall (by simp) nw _ g1 h1
      have hs2 := place_items_ok_spec pick hpk w h Tile.door (by simp) 1 g1 g2 h2
      have hs3 := place_items_ok_spec pick hpk w h Tile.coin (by simp) nc g2 g hg
      intro x hx y hy hcond
      have hni := border_not_interior w h x y hx hy hcond
      rw [hs3.2.2.2 x y hni, hs2.2.2.2 x y hni, hs1.2.2.2 x y hni]
      exact border_all_wall_initial w h x hx y hy hcond

/-- Clearing a cell that held a non-WALL tile preserves the border ring. -/
theorem set_tile_empty_border (lvl : Level) (p : Int × Int) (t : Tile)
    (ht : lvl.get_tile p.1 p.2 = some t) (htw : t ≠ Tile.wall)
    (hb : border_all_wall lvl.win_w lvl.win_h lvl.level_map) :
    border_all_wall lvl.win_w lvl.win_h (lvl.set_tile_empty p).level_map := by
  intro x hx y hy hcond
  show cellAt (setCell lvl.level_map p.1.toNat p.2.toNat Tile.empty) x y = some Tile.wall
  by_cases hc : (x, y) = (p.1.toNat, p.2.toNat)
  · exfalso
    unfold Level.get_tile at ht
    by_cases hbnd : lvl.in_bounds p.1 p.2
    · rw [if_pos hbnd] at ht
      have hcw := hb x hx y hy hcond
      rw [show x = p.1.toNat from congrArg Prod.fst hc,
        show y = p.2.toNat from congrArg Prod.snd hc] at hcw
      rw [hcw] at ht
      exact htw (by simpa using ht.symm)
    · rw [if_neg hbnd] at ht
      exact absurd ht (by simp)
  · rw [cellAt_setCell_ne _ _ _ _ _ _ hc]
    exact hb x hx y hy hcond

/-- The coin block preserves the window size, coin target, and border. -/
theorem coin_step_border (s : GState) (p : Int × Int)
    (hb : border_all_wall s.level.win_w s.level.win_h s.level.level_map) :
    (coin_step s p).level.win_w = s.level.win_w ∧
    (coin_step s p).level.win_h = s.level.win_h ∧
    (coin_step s p).level.num_coins = s.level.num_coins ∧
    border_all_wall s.level.win_w s.level.win_h (coin_step s p).level.level_map := by
  unfold coin_step
  split
  · next hcoin =>
    refine ⟨rfl, rfl, rfl, ?_⟩
    exact set_tile_empty_border s.level p Tile.coin
      ((is_coin_iff_get_tile s.level p).mp hcoin) (by simp) hb
  · exact ⟨rfl, rfl, rfl, hb⟩

/-- The door block preserves the window size, coin target, and border. -/
theorem door_step_border (s : GState) (p : Int × Int)
    (hb : border_all_wall s.level.win_w s.level.win_h s.level.level_map) :
    (door_step s p).level.win_w = s.level.win_w ∧
    (door_step s p).level.win_h = s.level.win_h ∧
    (door_step s p).level.num_coins = s.level.num_coins ∧
    border_all_wall s.level.win_w s.level.win_h (door_step s p).level.level_map := by
  unfold door_step
  split
  · next hdoor =>
    refine ⟨rfl, rfl, rfl, ?_⟩
    exact set_tile_empty_border s.level p Tile.door
      ((is_door_iff_get_tile s.level p).mp hdoor.1) (by simp) hb
  · exact ⟨rfl, rfl, rfl, hb⟩

/-- `update_monster` preserves the window size, coin target, and border. -/
theorem update_monster_border (s : GState) (dx dy : Int)
    (hb : border_all_wall s.level.win_w s.level.win_h s.level.level_map) :
    (update_monster s dx dy).level.win_w = s.level.win_w ∧
    (update_monster s dx dy).level.win_h = s.level.win_h ∧
    (update_monster s dx dy).level.num_coins = s.level.num_coins ∧
    border_all_wall s.level.win_w s.level.win_h
      (update_monster s dx dy).level.level_map := by
  rw [update_monster_eq]
  set p := propose_move s.monster_pos dx dy
  have h1 : (monster_move_step s p).level = s.level := monster_move_step_level s p
  have hc := coin_step_border (monster_move_step s p) p (by rw [h1]; exact hb)
  rw [h1] at hc
  have hd := door_step_border (coin_step (monster_move_step s p) p) p
    (by rw [hc.1, hc.2.1]; exact hc.2.2.2)
  rw [hc.1, hc.2.1, hc.2.2.1] at hd
  rw [capture_step_level]
  exact hd

/-- Successful `update_robot` never touches the level. -/
theorem update_robot_level (s : GState) (i : Nat) (s1 : GState)
    (h : update_robot s i = Except.ok s1) : s1.level = s.level := by
  unfold update_robot at h
  cases hr : s.robots[i]? with
  | none =>
    rw [hr] at h
    have : s = s1 := by simpa using h
    rw [← this]
  | some r =>
    rw [hr] at h
    cases hv : valid_positions s i r with
    | nil =>
      simp only [hv] at h
      exact absurd h (by simp)
    | cons v vs =>
      simp only [hv] at h
      split at h
      · have h2 : _ = s1 := Except.ok.inj h
        rw [← h2]
      · have h2 : _ = s1 := Except.ok.inj h
        rw [← h2]

/-- Successful `update_robots_from` never touches the level. -/
theorem update_robots_from_level :
    ∀ (idx : List Nat) (s s1 : GState),
      update_robots_from s idx = Except.ok s1 → s1.level = s.level := by
  intro idx
  induction idx with
  | nil =>
    intro s s1 h
    have : s = s1 := by simpa [update_robots_from] using h
    rw [← this]
  | cons i idx ih =>
    intro s s1 h
    unfold update_robots_from at h
    cases hr : update_robot s i with
    | error e => rw [hr] at h; simp at h
    | ok s2 =>
      rw [hr] at h
      rw [ih s2 s1 h, update_robot_level s i s2 hr]

/-- Successful `update_robots` never touches the level. -/
theorem update_robots_level (s s1 : GState)
    (h : update_robots s = Except.ok s1) : s1.level = s.level :=
  update_robots_from_level _ s s1 h

/-- Any successful run of monster/robot updates preserves the window size
and the all-WALL border ring. -/
theorem run_steps_border :
    ∀ (steps : List GStep) (s s1 : GState),
      run_steps s steps = Except.ok s1 →
      border_all_wall s.level.win_w s.level.win_h s.level.level_map →
      s1.level.win_w = s.level.win_w ∧ s1.level.win_h = s.level.win_h ∧
      border_all_wall s.level.win_w s.level.win_h s1.level.level_map := by
  intro steps
  induction steps with
  | nil =>
    intro s s1 h hb
    have : s = s1 := by simpa [run_steps] using h
    rw [← this]
    exact ⟨rfl, rfl, hb⟩
  | cons st steps ih =>
    intro s s1 h hb
    cases st with
    | monster dx dy =>
      unfold run_steps at h
      have hm := update_monster_border s dx dy hb
      have := ih (update_monster s dx dy) s1 h (by rw [hm.1, hm.2.1]; exact hm.2.2.2)
      rw [hm.1, hm.2.1] at this
      exact this
    | robots =>
      unfold run_steps at h
      cases hr : update_robots s with
      | error e => rw [hr] at h; simp at h
      | ok s2 =>
        rw [hr] at h
        have hlev := update_robots_level s s2 hr
        have := ih s2 s1 h (by rw [hlev]; exact hb)
        rw [hlev] at this
        exact this

/-- C8.  On every generated level the full border ring is WALL, and it
remains WALL after any sequence of `update_monster` / `update_robots`
calls: placements only write interior cells, and the simulation only
clears cells that held COIN or DOOR, which are never border cells. -/
theorem c8_border_ring_always_wall (pick : List (Nat × Nat) → Nat → List (Nat × Nat))
    (hpk : SampleOK pick) (w h nw nc : Nat) (g : Grid)
    (hg : generate_map pick w h nw nc = Except.ok g)
    (ncoins coins : Nat) (m : Int × Int) (cf ff : Bool) (rb : List (Int × Int))
    (steps : List GStep) (s1 : GState)
    (hrun : run_steps ⟨⟨w, h, ncoins, g⟩, m, coins, cf, ff, rb⟩ steps = Except.ok s1) :
    border_all_wall w h g ∧ border_all_wall w h s1.level.level_map := by
  have hb0 : border_all_wall w h g := border_all_wall_generated pick hpk w h nw nc g hg
  exact ⟨hb0, (run_steps_border steps _ s1 hrun hb0).2.2⟩

/-- "Take the first `n`" is an admissible model of `random.sample`. -/
theorem take_sample_ok : SampleOK (fun l n => l.take n) :=
  fun l n hnd hle =>
    ⟨fun a ha => List.mem_of_mem_take ha,
      hnd.sublist (List.take_sublist n l), by simp [hle]⟩

/-- Witness for `c8_border_ring_always_wall`: a generated 4×4 level is run
through one coin pickup and one (robot-free) robot tick. -/
theorem c8_border_ring_always_wall_witness :
    border_all_wall 4 4 ((generate_map (fun l n => l.take n) 4 4 0 1).toOption.getD []) ∧
    border_all_wall 4 4
      ((run_steps
          ⟨⟨4, 4, 1, (generate_map (fun l n => l.take n) 4 4 0 1).toOption.getD []⟩,
            (2, 2), 0, false, false, []⟩
          [GStep.monster 0 (-1), GStep.robots]).toOption.getD
        ⟨⟨4, 4, 1, []⟩, (0, 0), 0, false, false, []⟩).level.level_map :=
  c8_border_ring_always_wall (fun l n => l.take n) take_sample_ok 4 4 0 1
    ((generate_map (fun l n => l.take n) 4 4 0 1).toOption.getD []) (by rfl)
    1 0 (2, 2) false false [] [GStep.monster 0 (-1), GStep.robots]
    ((run_steps
        ⟨⟨4, 4, 1, (generate_map (fun l n => l.take n) 4 4 0 1).toOption.getD []⟩,
          (2, 2), 0, false, false, []⟩
        [GStep.monster 0 (-1), GStep.robots]).toOption.getD
      ⟨⟨4, 4, 1, []⟩, (0, 0), 0, false, false, []⟩) (by rfl)

/-! ## Claim C10: the monster stays strictly inside the border ring -/

/-- The five direction vectors the input collaborator can deliver
(`InputHandler.keymap` plus `(0,0)` for no input). -/
def monster_dirs : List (Int × Int) := [(0, 0), (0, -1), (0, 1), (-1, 0), (1, 0)]

/-- The monster-position invariant of claim C10: strictly inside the
border ring and never on a WALL tile. -/
def monster_ok (s : GState) : Prop :=
  1 ≤ s.monster_pos.1 ∧ s.monster_pos.1 ≤ (s.level.win_w : Int) - 2 ∧
  1 ≤ s.monster_pos.2 ∧ s.monster_pos.2 ≤ (s.level.win_h : Int) - 2 ∧
  s.level.get_tile s.monster_pos.1 s.monster_pos.2 ≠ some Tile.wall

instance (s : GState) : Decidable (monster_ok s) := by
  unfold monster_ok; infer_instance

/-- On a border-walled level, an in-range cell that is not WALL is strictly
interior. -/
theorem not_wall_in_range_interior (lvl : Level) (p : Int × Int)
    (hb : border_all_wall lvl.win_w lvl.win_h lvl.level_map)
    (hr : 0 ≤ p.1 ∧ p.1 < (lvl.win_w : Int) ∧ 0 ≤ p.2 ∧ p.2 < (lvl.win_h : Int))
    (hw : lvl.get_tile p.1 p.2 ≠ some Tile.wall) :
    1 ≤ p.1 ∧ p.1 ≤ (lvl.win_w : Int) - 2 ∧
    1 ≤ p.2 ∧ p.2 ≤ (lvl.win_h : Int) - 2 := by
  have hbnd : lvl.in_bounds p.1 p.2 := ⟨hr.1, hr.2.1, hr.2.2.1, hr.2.2.2⟩
  have hget : lvl.get_tile p.1 p.2 = cellAt lvl.level_map p.1.toNat p.2.toNat := by
    unfold Level.get_tile
    rw [if_pos hbnd]
  have ha : (p.1.toNat : Int) = p.1 := Int.toNat_of_nonneg hr.1
  have hb2 : (p.2.toNat : Int) = p.2 := Int.toNat_of_nonneg hr.2.2.1
  have hxw : p.1.toNat < lvl.win_w := by omega
  have hyh : p.2.toNat < lvl.win_h := by omega
  have hni : ¬ (p.1.toNat = 0 ∨ p.1.toNat = lvl.win_w - 1 ∨
      p.2.toNat = 0 ∨ p.2.toNat = lvl.win_h - 1) := by
    intro hcond
    apply hw
    rw [hget]
    exact hb p.1.toNat hxw p.2.toNat hyh hcond
  omega

/-- `cellAt` after `setCell`: the written value or the old cell. -/
theorem cellAt_setCell_cases (g : Grid) (a b x y : Nat) (v : Tile) :
    cellAt (setCell g a b v) x y = some v ∨
    cellAt (setCell g a b v) x y = cellAt g x y := by
  by_cases hc : (x, y) = (a, b)
  · have hx : x = a := congrArg Prod.fst hc
    have hy : y = b := congrArg Prod.snd hc
    subst hx; subst hy
    cases hcell : cellAt g x y with
    | none =>
      right
      unfold setCell
      cases hrow : g[y]? with
      | none => exact hcell
      | some row =>
        unfold cellAt at hcell ⊢
        rw [hrow, Option.some_bind] at hcell
        have hy2 : y < g.length := (List.getElem?_eq_some_iff.mp hrow).1
        rw [List.getElem?_set_self hy2, Option.some_bind]
        have hxlen : row.length ≤ x := List.getElem?_eq_none_iff.mp hcell
        rw [List.getElem?_eq_none_iff]
        simpa using hxlen
    | some t => exact Or.inl (cellAt_setCell_self g x y v t hcell)
  · right
    exact cellAt_setCell_ne g a b x y v hc

/-- Clearing any cell never makes another lookup a WALL. -/
theorem get_tile_clear_not_wall (lvl : Level) (p q : Int × Int)
    (h : lvl.get_tile q.1 q.2 ≠ some Tile.wall) :
    (lvl.set_tile_empty p).get_tile q.1 q.2 ≠ some Tile.wall := by
  unfold Level.get_tile at h ⊢
  by_cases hbnd : lvl.in_bounds q.1 q.2
  · rw [if_pos hbnd] at h
    rw [if_pos (show (lvl.set_tile_empty p).in_bounds q.1 q.2 from hbnd)]
    show cellAt (setCell lvl.level_map p.1.toNat p.2.toNat Tile.empty) q.1.toNat q.2.toNat
      ≠ some Tile.wall
    rcases cellAt_setCell_cases lvl.level_map p.1.toNat p.2.toNat q.1.toNat q.2.toNat
        Tile.empty with hc | hc
    · rw [hc]; simp
    · rw [hc]; exact h
  · rw [if_neg (show ¬ (lvl.set_tile_empty p).in_bounds q.1 q.2 from hbnd)]
    simp

/-- The coin block never makes any lookup a WALL. -/
theorem coin_step_not_wall (s : GState) (p q : Int × Int)
    (h : s.level.get_tile q.1 q.2 ≠ some Tile.wall) :
    (coin_step s p).level.get_tile q.1 q.2 ≠ some Tile.wall := by
  unfold coin_step
  split
  · exact get_tile_clear_not_wall s.level p q h
  · exact h

/-- The door block never makes any lookup a WALL. -/
theorem door_step_not_wall (s : GState) (p q : Int × Int)
    (h : s.level.get_tile q.1 q.2 ≠ some Tile.wall) :
    (door_step s p).level.get_tile q.1 q.2 ≠ some Tile.wall := by
  unfold door_step
  split
  · exact get_tile_clear_not_wall s.level p q h
  · exact h

/-- One `update_monster` call with a unit-or-zero direction keeps the
monster strictly interior and off walls, on a border-walled level. -/
theorem update_monster_monster_ok (s : GState) (dx dy : Int)
    (hd : (dx, dy) ∈ monster_dirs)
    (hb : border_all_wall s.level.win_w s.level.win_h s.level.level_map)
    (hok : monster_ok s) : monster_ok (update_monster s dx dy) := by
  obtain ⟨h1, h2, h3, h4, h5⟩ := hok
  have hwin := update_monster_border s dx dy hb
  set p := propose_move s.monster_pos dx dy with hp
  have hpos : (update_monster s dx dy).monster_pos
      = (monster_move_step s p).monster_pos := by
    rw [update_monster_eq, capture_step_pos, door_step_pos, coin_step_pos]
  have hlev : (update_monster s dx dy).level
      = (door_step (coin_step (monster_move_step s p) p) p).level := by
    rw [update_monster_eq, capture_step_level]
  have hml : (monster_move_step s p).level = s.level := monster_move_step_level s p
  have hnw : ∀ q : Int × Int, s.level.get_tile q.1 q.2 ≠ some Tile.wall →
      (update_monster s dx dy).level.get_tile q.1 q.2 ≠ some Tile.wall := by
    intro q hq
    rw [hlev]
    apply door_step_not_wall
    rw [show (coin_step (monster_move_step s p) p).level
        = (coin_step (monster_move_step s p) p).level from rfl]
    apply coin_step_not_wall
    rw [hml]
    exact hq
  unfold monster_ok
  rw [hwin.1, hwin.2.1, hpos]
  unfold monster_move_step
  split
  · next hv =>
    have hpw : s.level.get_tile p.1 p.2 ≠ some Tile.wall := by
      unfold is_valid_monster_position Level.is_not_wall at hv
      simpa using hv
    have hdb : -1 ≤ dx ∧ dx ≤ 1 ∧ -1 ≤ dy ∧ dy ≤ 1 := by
      simp only [monster_dirs, List.mem_cons, Prod.mk.injEq, List.not_mem_nil,
        or_false] at hd
      rcases hd with ⟨ha, hb2⟩ | ⟨ha, hb2⟩ | ⟨ha, hb2⟩ | ⟨ha, hb2⟩ | ⟨ha, hb2⟩ <;>
        rw [ha, hb2] <;> norm_num
    have hrange : 0 ≤ p.1 ∧ p.1 < (s.level.win_w : Int) ∧
        0 ≤ p.2 ∧ p.2 < (s.level.win_h : Int) := by
      rw [hp]
      unfold propose_move
      dsimp only
      refine ⟨by omega, by omega, by omega, by omega⟩
    have hint := not_wall_in_range_interior s.level p hb hrange hpw
    exact ⟨hint.1, hint.2.1, hint.2.2.1, hint.2.2.2, hnw p hpw⟩
  · exact ⟨h1, h2, h3, h4, hnw s.monster_pos h5⟩

/-- An accepted `seed_monster` position came from the candidate stream and
passed the walkability test. -/
theorem seed_monster_spec (lvl : Level) :
    ∀ (cands : List (Int × Int)) (p0 : Int × Int),
      seed_monster lvl cands = some p0 →
      p0 ∈ cands ∧ is_valid_monster_position lvl p0 = true := by
  intro cands
  induction cands with
  | nil => intro p0 h; exact absurd h (by simp [seed_monster])
  | cons c cs ih =>
    intro p0 h
    unfold seed_monster at h
    by_cases hv : is_valid_monster_position lvl c = true
    · rw [if_pos hv] at h
      have : c = p0 := by simpa using h
      rw [← this]
      exact ⟨by simp, hv⟩
    · rw [if_neg hv] at h
      obtain ⟨hm, hval⟩ := ih p0 h
      exact ⟨by simp [hm], hval⟩

/-- C10.  On a border-walled level, a monster seeded by `seed_monster`
(from in-range `randint` candidates) stays strictly inside the border ring
(`1 ≤ x ≤ w-2`, `1 ≤ y ≤ h-2`) and never on a WALL tile across any
sequence of `update_monster` calls with unit-or-zero directions — even
though `is_not_wall` classifies out-of-bounds positions as walkable
(first conjunct), the all-WALL ring makes them unreachable. -/
theorem c10_monster_stays_interior (lvl : Level)
    (hb : border_all_wall lvl.win_w lvl.win_h lvl.level_map)
    (cands : List (Int × Int))
    (hc : ∀ c ∈ cands, 0 ≤ c.1 ∧ c.1 < (lvl.win_w : Int) ∧
      0 ≤ c.2 ∧ c.2 < (lvl.win_h : Int))
    (p0 : Int × Int) (hs : seed_monster lvl cands = some p0)
    (coins : Nat) (cf ff : Bool) (rb : List (Int × Int))
    (moves : List (Int × Int)) (hm : ∀ d ∈ moves, d ∈ monster_dirs) :
    (∀ q : Int × Int, ¬ lvl.in_bounds q.1 q.2 → lvl.is_not_wall q = true) ∧
    monster_ok (moves.foldl (fun s d => update_monster s d.1 d.2)
      ⟨lvl, p0, coins, cf, ff, rb⟩) := by
  constructor
  · intro q hq
    unfold Level.is_not_wall Level.get_tile
    rw [if_neg hq]
    simp
  · have hinv : ∀ (ms : List (Int × Int)) (s : GState),
        (∀ d ∈ ms, d ∈ monster_dirs) →
        border_all_wall s.level.win_w s.level.win_h s.level.level_map →
        monster_ok s →
        monster_ok (ms.foldl (fun s d => update_monster s d.1 d.2) s) := by
      intro ms
      induction ms with
      | nil => intro s _ _ hok; exact hok
      | cons d ms ih =>
        intro s hms hbs hok
        simp only [List.foldl_cons]
        have hbn := update_monster_border s d.1 d.2 hbs
        apply ih (update_monster s d.1 d.2) (fun e he => hms e (by simp [he]))
        · rw [hbn.1, hbn.2.1]
          exact hbn.2.2.2
        · exact update_monster_monster_ok s d.1 d.2 (hms d (by simp)) hbs hok
    apply hinv moves _ hm hb
    obtain ⟨hmem, hval⟩ := seed_monster_spec lvl cands p0 hs
    have hw : lvl.get_tile p0.1 p0.2 ≠ some Tile.wall := by
      unfold is_valid_monster_position Level.is_not_wall at hval
      simpa using hval
    have hint := not_wall_in_range_interior lvl p0 hb (hc p0 hmem) hw
    exact ⟨hint.1, hint.2.1, hint.2.2.1, hint.2.2.2, hw⟩

/-- Witness for `c10_monster_stays_interior`: on `door_level` the monster
seeded at `(1,1)` moves right once. -/
theorem c10_monster_stays_interior_witness :
    (∀ q : Int × Int, ¬ door_level.in_bounds q.1 q.2 →
      door_level.is_not_wall q = true) ∧
    monster_ok ([((1 : Int), (0 : Int))].foldl
      (fun s d => update_monster s d.1 d.2)
      ⟨door_level, (1, 1), 0, false, false, []⟩) :=
  c10_monster_stays_interior door_level (by decide) [(1, 1)] (by decide)
    (1, 1) (by decide) 0 false false [] [(1, 0)] (by decide)
